import Mathlib

/-!
Shallow embedding of the battle session engine of `src/PokeBat/server.go`
(a two-player turn-based Pokémon battle server), together with proofs of
the specified properties.

Modelling conventions:
* Go `int` fields are modelled as `Int`; Go integer division (truncation
  toward zero) is `Int.tdiv`.
* `rand.Intn 10` and `rand.Intn 2 == 0` are modelled by passing the drawn
  values (`r : Int` with `0 ≤ r < 10`, `isSpecial : Bool`) as explicit
  arguments.
* The `ElementalEffects map[string]float64` field of the Go `Pokemon`
  struct is declared in the source but never read nor written by any
  function of the file, so it is omitted from the embedding; likewise the
  unused `IsFainted` field of the Go `Player` struct and the transport
  handle `Conn net.Conn` (network I/O is outside the state model: the
  messages read from a connection are passed as explicit inputs, and
  `sendJSON` outputs do not affect the match state).
-/

/-- `Pokemon` struct of server.go: name, six base stats, accumulated
experience, fainted flag. -/
structure Pokemon where
  name : String
  hp : Int
  attack : Int
  defense : Int
  specialAttack : Int
  specialDefense : Int
  speed : Int
  experience : Int
  isFainted : Bool
  deriving Repr, DecidableEq

/-- Default value used for out-of-range list reads (the Go code only ever
indexes in range; `List.getD` needs a default). -/
def dPk : Pokemon :=
  { name := "", hp := 0, attack := 0, defense := 0, specialAttack := 0,
    specialDefense := 0, speed := 0, experience := 0, isFainted := false }

/-- `Player` struct of server.go: name, roster of Pokémon, index of the
active Pokémon. -/
structure Player where
  name : String
  pokemons : List Pokemon
  active : Nat
  deriving Repr, DecidableEq

/-- `GameState` struct of server.go: the two players, whose turn it is
(1 or 2), and the two selection-done flags. -/
structure GameState where
  player1 : Player
  player2 : Player
  turn : Nat
  player1Done : Bool
  player2Done : Bool
  deriving Repr, DecidableEq

/-- The attack stat chosen by `calculateDamage`: `SpecialAttack` for a
special attack, `Attack` otherwise. -/
def chosenAttackStat (attacker : Pokemon) (isSpecial : Bool) : Int :=
  if isSpecial then attacker.specialAttack else attacker.attack

/-- The defense stat chosen by `calculateDamage`: `SpecialDefense` for a
special attack, `Defense` otherwise. -/
def chosenDefenseStat (defender : Pokemon) (isSpecial : Bool) : Int :=
  if isSpecial then defender.specialDefense else defender.defense

/-- `calculateDamage` of server.go.  `r` is the value drawn by
`rand.Intn(10)`.  The damage is `attackStat - defenseStat/2 + r`, floored
at zero; Go's `/` on `int` truncates toward zero, i.e. `Int.tdiv`. -/
def calculateDamage (attacker defender : Pokemon) (isSpecial : Bool) (r : Int) : Int :=
  let attackStat := chosenAttackStat attacker isSpecial
  let defenseStat := chosenDefenseStat defender isSpecial
  let damage := (attackStat - Int.tdiv defenseStat 2) + r
  if damage < 0 then 0 else damage

/-- Scenario A attacker: Attack 50 (physical pair). -/
def scenAttacker : Pokemon := { dPk with name := "Atk", attack := 50, hp := 80 }

/-- Scenario A defender: Defense 20, HP 100. -/
def scenDefender : Pokemon := { dPk with name := "Def", defense := 20, hp := 100 }

/-- `switchPokemon` of server.go: advance the player's active index
cyclically, regardless of faint status:
`player.Active = (player.Active + 1) % len(player.Pokemons)`. -/
def switchPokemon (player : Player) : Player :=
  { player with active := (player.active + 1) % player.pokemons.length }

/-- The `totalExp` accumulation of `distributeExperience`: sum of the
losing roster's accumulated experience. -/
def totalExp (losingPlayer : Player) : Int :=
  (losingPlayer.pokemons.map (fun pkmn => pkmn.experience)).sum

/-- `distributeExperience` of server.go.  If `totalExp` is zero it only
reports and returns, mutating nothing.  Otherwise `expShare = totalExp/3`
and the source contains TWO loops that each add `expShare` to every
Pokémon of the winning roster (the second one also reports before/after
values), so the winning roster's experience grows by `2 * expShare` in
total.  Returns the updated winning player. -/
def distributeExperience (winningPlayer losingPlayer : Player) : Player :=
  if totalExp losingPlayer = 0 then winningPlayer
  else
    let expShare := Int.tdiv (totalExp losingPlayer) 3
    let addShare := fun (p : Pokemon) => { p with experience := p.experience + expShare }
    let w1 := { winningPlayer with pokemons := winningPlayer.pokemons.map addShare }
    { w1 with pokemons := w1.pokemons.map addShare }

/-- The `allFainted` check of the battle loop: every Pokémon of the
roster has its fainted flag set. -/
def allFainted (player : Player) : Bool :=
  player.pokemons.all (fun pkmn => pkmn.isFainted)

/-- `currentPlayer` binding at the top of the battle loop: player 1 when
`Turn == 1`, player 2 otherwise. -/
def currentOf (s : GameState) : Player :=
  if s.turn = 1 then s.player1 else s.player2

/-- `opponent` binding at the top of the battle loop. -/
def opponentOf (s : GameState) : Player :=
  if s.turn = 1 then s.player2 else s.player1

/-- Write back the `currentPlayer`/`opponent` pointers into the game
state (Go mutates through pointers; the embedding reassembles). -/
def setPlayers (s : GameState) (cur opp : Player) : GameState :=
  if s.turn = 1 then { s with player1 := cur, player2 := opp }
  else { s with player1 := opp, player2 := cur }

/-- The defender's HP after one attack: `HP -= damage`, floored at 0
(`if HP < 0 { HP = 0 }`). -/
def damagedHp (defPk : Pokemon) (damage : Int) : Int :=
  if defPk.hp - damage < 0 then 0 else defPk.hp - damage

/-- Effect of one attack on the defender's active Pokémon: the HP drops
to `damagedHp`, and the fainted flag is set when the resulting HP is
exactly 0 (`if HP == 0`). -/
def damagedPokemon (defPk : Pokemon) (damage : Int) : Pokemon :=
  let hp2 := damagedHp defPk damage
  if hp2 = 0 then { defPk with hp := hp2, isFainted := true }
  else { defPk with hp := hp2 }

/-- The `"attack"` case of the battle loop up to the faint flag: damage
is computed from the two active Pokémon and applied to the defender's
active Pokémon (`damagedPokemon`).  Returns the updated opponent. -/
def attackOpponent (current opponent : Player) (isSpecial : Bool) (r : Int) : Player :=
  let damage := calculateDamage (current.pokemons.getD current.active dPk)
    (opponent.pokemons.getD opponent.active dPk) isSpecial r
  let defPk2 := damagedPokemon (opponent.pokemons.getD opponent.active dPk) damage
  { opponent with pokemons := opponent.pokemons.set opponent.active defPk2 }

/-- Result of one iteration of the battle loop of `handleBattle`. -/
inductive StepResult where
  /-- A read error or a JSON parse error: the loop `return`s with no
  winner and no experience distribution (the deferred `Conn.Close` calls
  then close both channels). -/
  | aborted (s : GameState)
  /-- The loop `return`s with a declared winner (roster defeat or
  surrender) after distributing experience. -/
  | gameOver (winner : Nat) (s : GameState)
  /-- The loop continues: `Turn = 3 - Turn` has been applied. -/
  | next (s : GameState)
  deriving Repr, DecidableEq

/-- The complete `"attack"` case of the battle loop: apply the damage
(`attackOpponent`), then, when the defender's active Pokémon's HP is
exactly 0, it has been marked fainted; if the whole defending roster is
fainted the attacker wins and experience is distributed, otherwise the
defender's active index is advanced (`switchPokemon`) and the turn
flips; with HP above 0 the turn simply flips. -/
def attackCase (s : GameState) (isSpecial : Bool) (r : Int) : StepResult :=
  let current := currentOf s
  let opponent := opponentOf s
  let opp1 := attackOpponent current opponent isSpecial r
  if (opp1.pokemons.getD opp1.active dPk).hp = 0 then
    if allFainted opp1 then
      .gameOver s.turn (setPlayers s (distributeExperience current opp1) opp1)
    else
      .next { setPlayers s current (switchPokemon opp1) with turn := 3 - s.turn }
  else
    .next { setPlayers s current opp1 with turn := 3 - s.turn }

/-- One iteration of the `for` loop of `handleBattle` of server.go,
after the initial turn resolution.  `msg` is the parsed action of the
turn-owning player (`none` models a connection read error or a
`json.Unmarshal` error — both paths `return`); `isSpecial` models
`rand.Intn(2) == 0` and `r` models `rand.Intn(10)`. -/
def battleStep (s : GameState) (msg : Option String) (isSpecial : Bool) (r : Int) :
    StepResult :=
  match msg with
  | none => .aborted s
  | some action =>
    match action with
    | "attack" => attackCase s isSpecial r
    | "switch" =>
      .next { setPlayers s (switchPokemon (currentOf s)) (opponentOf s) with
              turn := 3 - s.turn }
    | "surrender" =>
      .gameOver (3 - s.turn)
        (setPlayers s (currentOf s) (distributeExperience (opponentOf s) (currentOf s)))
    | _ => .next { s with turn := 3 - s.turn }

/-- One message delivered to the battle loop together with the two
random draws its resolution consumes. -/
structure BattleInput where
  msg : Option String
  isSpecial : Bool
  r : Int
  deriving Repr, DecidableEq

/-- Result of running the battle loop on a finite list of inputs. -/
inductive RunResult where
  /-- The input list was exhausted with the match still running (the Go
  loop would block on the next read). -/
  | outOfInput (s : GameState)
  /-- Protocol error: the loop exited with no winner. -/
  | aborted (s : GameState)
  /-- The loop exited with a declared winner. -/
  | gameOver (winner : Nat) (s : GameState)
  deriving Repr, DecidableEq

/-- The `for` loop of `handleBattle`, driven by a finite list of inputs:
iterate `battleStep` until a terminal result or until input runs out. -/
def battleRun (s : GameState) : List BattleInput → RunResult
  | [] => .outOfInput s
  | i :: rest =>
    match battleStep s i.msg i.isSpecial i.r with
    | .next s1 => battleRun s1 rest
    | .aborted s1 => .aborted s1
    | .gameOver w s1 => .gameOver w s1

/-- The selection loop of `handlePokemonSelection` of server.go.  Each
request is the outcome of one `decoder.Decode` of a `PokemonChoice`:
`none` models a decode error, `some c` the decoded `choice` field (a Go
`int`, hence `Int`).  A request is accepted iff it decoded, is within
catalog bounds (`0 ≤ c < len(pokedex)`) and was not already selected;
otherwise the request is rejected and the slot index `i` is decremented,
i.e. the accepted-count does not advance.  `chosen` accumulates the
accepted catalog indices in selection order; the loop stops after three
acceptances (`none` when the request list runs out first). -/
def selectLoop (pokedex : List Pokemon) : List (Option Int) → List Int → Option (List Int)
  | [], chosen => if 3 ≤ chosen.length then some chosen else none
  | req :: rest, chosen =>
    if 3 ≤ chosen.length then some chosen
    else
      match req with
      | some c =>
        if 0 ≤ c ∧ c < (pokedex.length : Int) ∧ c ∉ chosen then
          selectLoop pokedex rest (chosen ++ [c])
        else
          selectLoop pokedex rest chosen
      | none => selectLoop pokedex rest chosen

/-- `handlePokemonSelection` of server.go, as the roster it produces:
the player's Pokémon list is `pokedex[c]` for each accepted index `c`, in
selection order.  The `Active` field is never written during selection,
so it keeps the Go zero value 0 from the `Player` literal in `main`. -/
def handlePokemonSelection (playerName : String) (pokedex : List Pokemon)
    (requests : List (Option Int)) : Option Player :=
  (selectLoop pokedex requests []).map
    (fun chosen => { name := playerName, active := 0,
                     pokemons := chosen.map (fun c => pokedex.getD c.toNat dPk) })

/-- Concrete Pokémon with 100 accumulated experience, used in the
reward-distribution scenarios. -/
def cExp100 (n : String) (h : Int) : Pokemon := { dPk with name := n, hp := h, experience := 100 }

/-- Concrete winning player with zero accumulated experience on each
Pokémon. -/
def cWinner : Player :=
  { name := "W", active := 0,
    pokemons := [{ dPk with name := "w0", hp := 50 }, { dPk with name := "w1", hp := 50 },
                 { dPk with name := "w2", hp := 50 }] }

/-- Concrete losing player whose roster's accumulated experience sums to
300 (Scenario E). -/
def cLoser : Player :=
  { name := "L", active := 0,
    pokemons := [cExp100 "l0" 0, cExp100 "l1" 0, cExp100 "l2" 0] }

/-- Concrete player whose roster holds a fainted Pokémon in slot 0 and
non-fainted Pokémon in slots 1 and 2, with slot 2 active. -/
def cexPlayer : Player :=
  { name := "X", active := 2,
    pokemons := [{ dPk with name := "x0", isFainted := true },
                 { dPk with name := "x1", hp := 30 }, { dPk with name := "x2", hp := 40 }] }

/-- Concrete opponent roster for the counterexample state. -/
def cexOpp : Player :=
  { name := "Y", active := 0,
    pokemons := [{ dPk with name := "y0", hp := 25 }, { dPk with name := "y1", hp := 25 },
                 { dPk with name := "y2", hp := 25 }] }

/-- Concrete game state: `cexPlayer` owns the turn. -/
def cexState : GameState :=
  { player1 := cexPlayer, player2 := cexOpp, turn := 1,
    player1Done := true, player2Done := true }

/-- The state after `cexPlayer` plays `"switch"` in `cexState`: the
active index advances cyclically from 2 to 0 and the turn flips. -/
def cexState1 : GameState :=
  { cexState with player1 := { cexPlayer with active := 0 }, turn := 2 }

/-- Concrete game state used by the battle-machine witnesses: two healthy
length-3 rosters, player 1 to move. -/
def cState : GameState :=
  { player1 := cWinner, player2 := cLoser, turn := 1,
    player1Done := true, player2Done := true }

/-- C5: for every attack with chosen attack stat `A`, chosen defense stat
`D` and random roll `0 ≤ r < 10`, the damage equals
`max 0 (A - D/2 + r)` (truncating division), hence lies in
`[max 0 (A - D/2), max 0 (A - D/2) + 9]`; and in Scenario A
(Attack 50, Defense 20, roll 5, physical) the damage is 45. -/
theorem calculateDamage_formula_range (attacker defender : Pokemon)
    (isSpecial : Bool) (r : Int) (h0 : 0 ≤ r) (h9 : r < 10) :
    calculateDamage attacker defender isSpecial r =
      max 0 (chosenAttackStat attacker isSpecial -
        Int.tdiv (chosenDefenseStat defender isSpecial) 2 + r) ∧
    max 0 (chosenAttackStat attacker isSpecial -
        Int.tdiv (chosenDefenseStat defender isSpecial) 2) ≤
      calculateDamage attacker defender isSpecial r ∧
    calculateDamage attacker defender isSpecial r ≤
      max 0 (chosenAttackStat attacker isSpecial -
        Int.tdiv (chosenDefenseStat defender isSpecial) 2) + 9 ∧
    calculateDamage scenAttacker scenDefender false 5 = 45 := by
  unfold calculateDamage
  set A := chosenAttackStat attacker isSpecial with hA
  set D := chosenDefenseStat defender isSpecial with hD
  refine ⟨?_, ?_, ?_, by decide⟩
  · simp only [max_def]
    split <;> split <;> omega
  · simp only [max_def]
    split <;> split <;> omega
  · simp only [max_def]
    split <;> split <;> omega

/-- Witness for `calculateDamage_formula_range` at Scenario A's concrete
input (roll 5, physical attack). -/
theorem calculateDamage_formula_range_witness :
    calculateDamage scenAttacker scenDefender false 5 =
      max 0 (chosenAttackStat scenAttacker false -
        Int.tdiv (chosenDefenseStat scenDefender false) 2 + 5) ∧
    calculateDamage scenAttacker scenDefender false 5 = 45 :=
  ⟨(calculateDamage_formula_range scenAttacker scenDefender false 5
      (by decide) (by decide)).1,
   (calculateDamage_formula_range scenAttacker scenDefender false 5
      (by decide) (by decide)).2.2.2⟩

/-- Helper: `setPlayers` never touches the turn field. -/
theorem setPlayers_turn (s : GameState) (cur opp : Player) :
    (setPlayers s cur opp).turn = s.turn := by
  unfold setPlayers
  split <;> rfl

/-- C3: a turn-action message that fails to read or to parse (`msg =
none`) makes the battle loop exit at once with no winner declared, no
reward distribution, and the match state untouched; the remaining inputs
are never consumed (the session is over — the deferred `Close` calls
shut both channels), rather than the message being rejected-and-retried. -/
theorem battleStep_protocol_error_aborts (s : GameState) (isSpecial : Bool)
    (r : Int) (rest : List BattleInput) :
    battleStep s none isSpecial r = .aborted s ∧
    battleRun s (⟨none, isSpecial, r⟩ :: rest) = .aborted s := by
  constructor
  · rfl
  · unfold battleRun
    rfl

/-- C4: a turn-action message that parses but whose action tag is none of
`"attack"`, `"switch"`, `"surrender"` falls through the `switch`
statement silently: no roster is touched, no outcome is produced and the
match continues, with only the turn flipped to the other player. -/
theorem battleStep_unknown_action (s : GameState) (a : String)
    (isSpecial : Bool) (r : Int)
    (h1 : a ≠ "attack") (h2 : a ≠ "switch") (h3 : a ≠ "surrender") :
    battleStep s (some a) isSpecial r = .next { s with turn := 3 - s.turn } := by
  simp only [battleStep]

/-- Witness for `battleStep_unknown_action` at the concrete tag
`"dance"`: the state is unchanged apart from the flipped turn. -/
theorem battleStep_unknown_action_witness :
    battleStep cState (some "dance") false 0 = .next { cState with turn := 2 } :=
  battleStep_unknown_action cState "dance" false 0
    (by decide) (by decide) (by decide)

/-- C10: when the losing roster's total accumulated experience is zero,
`distributeExperience` only reports and returns: the winning player (in
particular every combatant's experience) is unchanged, and no other part
of the state is touched. -/
theorem distributeExperience_zero_total (winningPlayer losingPlayer : Player)
    (h : totalExp losingPlayer = 0) :
    distributeExperience winningPlayer losingPlayer = winningPlayer := by
  unfold distributeExperience
  rw [if_pos h]

/-- Witness for `distributeExperience_zero_total`: a loser roster of
fresh Pokémon (zero experience) leaves the concrete winner untouched. -/
theorem distributeExperience_zero_total_witness :
    distributeExperience cLoser cWinner = cLoser :=
  distributeExperience_zero_total cLoser cWinner (by decide)

/-- C1 (code bug): with the losing roster's total experience equal to
300, the source's `distributeExperience` increases each winning
combatant's experience by 200, not by the `expShare = 300 / 3 = 100`
that its own comment ("Each Pokémon in the winning team gets 1/3 of the
total experience") and its report message ("gained `expShare`
experience") promise: the function contains two loops that each add
`expShare` to every winning Pokémon. -/
theorem distributeExperience_adds_share_twice :
    totalExp cLoser = 300 ∧
    Int.tdiv (totalExp cLoser) 3 = 100 ∧
    (cWinner.pokemons.map (fun p => p.experience) = [0, 0, 0]) ∧
    ((distributeExperience cWinner cLoser).pokemons.map (fun p => p.experience)
      = [200, 200, 200]) := by
  decide

/-- C2 (counterexample): in `cexState` the turn-owning roster has its
fainted Pokémon in slot 0 and non-fainted Pokémon in slots 1 and 2, with
slot 2 active.  Resolving the `"switch"` action advances the active
index unconditionally to `(2+1) % 3 = 0`, so after this battle-machine
transition the active index references a fainted combatant even though
the roster still has non-fainted combatants — the claimed invariant
fails. -/
theorem battleStep_switch_invariant_cex :
    battleStep cexState (some "switch") false 0 = .next cexState1 ∧
    cexState1.player1.pokemons.any (fun pk => !pk.isFainted) = true ∧
    (cexState1.player1.pokemons.getD cexState1.player1.active dPk).isFainted = true := by
  decide

/-- C2 (amended): `switchPokemon` — used both for the `"switch"` action
and for the post-faint advancement — moves the active index to
`(active + 1) % 3` unconditionally, without skipping fainted slots; the
new active combatant is non-fainted exactly when the combatant in that
cyclic-successor slot is non-fainted, so the non-fainted-active
invariant is only guaranteed under that extra condition. -/
theorem switchPokemon_cyclic (player : Player)
    (h3 : player.pokemons.length = 3) :
    (switchPokemon player).active = (player.active + 1) % 3 ∧
    ((player.pokemons.getD ((player.active + 1) % 3) dPk).isFainted = false →
      ((switchPokemon player).pokemons.getD
        (switchPokemon player).active dPk).isFainted = false) := by
  unfold switchPokemon
  rw [h3]
  exact ⟨rfl, fun h => h⟩

/-- Witness for `switchPokemon_cyclic` at the concrete roster `cexOpp`
(all three slots non-fainted, active 0): after the switch the active
index is 1 and the active combatant is non-fainted. -/
theorem switchPokemon_cyclic_witness :
    (switchPokemon cexOpp).active = (cexOpp.active + 1) % 3 ∧
    ((switchPokemon cexOpp).pokemons.getD (switchPokemon cexOpp).active dPk).isFainted
      = false :=
  ⟨(switchPokemon_cyclic cexOpp (by decide)).1,
   (switchPokemon_cyclic cexOpp (by decide)).2 (by decide)⟩

/-- Helper: reading the slot just written by `List.set`, in range. -/
theorem getD_set_lt {α : Type _} (l : List α) (i : Nat) (x d : α) (h : i < l.length) :
    (l.set i x).getD i d = x := by
  rw [List.getD_eq_getElem?_getD, List.getElem?_set, if_pos rfl, if_pos h]
  rfl

/-- Helper: reading the slot targeted by `List.set`, out of range. -/
theorem getD_set_ge {α : Type _} (l : List α) (i : Nat) (x d : α) (h : ¬ i < l.length) :
    (l.set i x).getD i d = d := by
  rw [List.set_eq_of_length_le (by omega), List.getD_eq_getElem?_getD,
    List.getElem?_eq_none (by omega)]
  rfl

/-- Helper: an in-range `getD` read is a member of the list. -/
theorem getD_mem {α : Type _} (l : List α) (i : Nat) (d : α) (h : i < l.length) :
    l.getD i d ∈ l := by
  rw [List.getD_eq_getElem?_getD, List.getElem?_eq_getElem h]
  exact List.getElem_mem h

/-- Helper: the damage computed by `calculateDamage` is never negative
(the zero floor is unconditional). -/
theorem calculateDamage_nonneg (attacker defender : Pokemon) (isSpecial : Bool)
    (r : Int) : 0 ≤ calculateDamage attacker defender isSpecial r := by
  simp only [calculateDamage]
  split <;> omega

/-- Helper: `damagedPokemon` with its `let` expanded. -/
theorem damagedPokemon_def (defPk : Pokemon) (damage : Int) :
    damagedPokemon defPk damage =
      (if damagedHp defPk damage = 0
       then { defPk with hp := damagedHp defPk damage, isFainted := true }
       else { defPk with hp := damagedHp defPk damage }) := rfl

/-- Helper: the HP after one attack is the damaged HP floored at zero. -/
theorem damagedPokemon_hp (defPk : Pokemon) (damage : Int) :
    (damagedPokemon defPk damage).hp = damagedHp defPk damage := by
  rw [damagedPokemon_def]
  split <;> rfl

/-- Helper: the attack leaves the roster length unchanged. -/
theorem attackOpponent_length (current opponent : Player) (isSpecial : Bool)
    (r : Int) :
    (attackOpponent current opponent isSpecial r).pokemons.length =
      opponent.pokemons.length :=
  List.length_set ..

/-- Helper: if a Pokémon is flagged fainted after taking a hit and — as
in every reachable battle state — it carried 0 HP whenever it was
already flagged fainted before the hit, then its HP after the hit is 0. -/
theorem damagedPokemon_isFainted_hp (defPk : Pokemon) (damage : Int)
    (hd : 0 ≤ damage) (hpre : defPk.isFainted = true → defPk.hp = 0)
    (hfaint : (damagedPokemon defPk damage).isFainted = true) :
    (damagedPokemon defPk damage).hp = 0 := by
  rw [damagedPokemon_def] at hfaint ⊢
  by_cases h2 : damagedHp defPk damage = 0
  · rw [if_pos h2]
    exact h2
  · rw [if_neg h2] at hfaint
    have h0 := hpre hfaint
    exfalso
    apply h2
    unfold damagedHp
    split <;> omega

/-- Helper: an attack never touches the defender's active index. -/
theorem attackOpponent_active (current opponent : Player) (isSpecial : Bool) (r : Int) :
    (attackOpponent current opponent isSpecial r).active = opponent.active := rfl

/-- Helper: the defender's active slot after an attack, read back. -/
theorem attackOpponent_getD (current opponent : Player) (isSpecial : Bool) (r : Int)
    (hlt : opponent.active < opponent.pokemons.length) :
    (attackOpponent current opponent isSpecial r).pokemons.getD opponent.active dPk =
      damagedPokemon (opponent.pokemons.getD opponent.active dPk)
        (calculateDamage (current.pokemons.getD current.active dPk)
          (opponent.pokemons.getD opponent.active dPk) isSpecial r) :=
  getD_set_lt _ _ _ _ hlt

/-- Helper: if every Pokémon of the defending roster is flagged fainted
after an attack, then — provided the active index is in range and
fainted Pokémon carry 0 HP, as every reachable battle state satisfies —
the defender's active Pokémon's HP is exactly 0 after the attack. -/
theorem allFainted_attack_hp_zero (current opponent : Player) (isSpecial : Bool)
    (r : Int) (hlt : opponent.active < opponent.pokemons.length)
    (hfhp : ∀ pk ∈ opponent.pokemons, pk.isFainted = true → pk.hp = 0)
    (hall : allFainted (attackOpponent current opponent isSpecial r) = true) :
    ((attackOpponent current opponent isSpecial r).pokemons.getD
      (attackOpponent current opponent isSpecial r).active dPk).hp = 0 := by
  rw [attackOpponent_active, attackOpponent_getD current opponent isSpecial r hlt]
  have hd := calculateDamage_nonneg (current.pokemons.getD current.active dPk)
    (opponent.pokemons.getD opponent.active dPk) isSpecial r
  have hmem : damagedPokemon (opponent.pokemons.getD opponent.active dPk)
      (calculateDamage (current.pokemons.getD current.active dPk)
        (opponent.pokemons.getD opponent.active dPk) isSpecial r) ∈
      (attackOpponent current opponent isSpecial r).pokemons := by
    rw [← attackOpponent_getD current opponent isSpecial r hlt]
    refine getD_mem _ _ _ ?_
    rw [attackOpponent_length]
    exact hlt
  unfold allFainted at hall
  have hfaint := List.all_eq_true.mp hall _ hmem
  exact damagedPokemon_isFainted_hp _ _ hd (hfhp _ (getD_mem _ _ _ hlt)) hfaint

/-- Helper: the `"attack"` case terminates the match exactly when the
whole defending roster is fainted after the hit. -/
theorem attackCase_gameOver_iff (s : GameState) (isSpecial : Bool) (r : Int)
    (hlt : (opponentOf s).active < (opponentOf s).pokemons.length)
    (hfhp : ∀ pk ∈ (opponentOf s).pokemons, pk.isFainted = true → pk.hp = 0) :
    (∃ w s1, attackCase s isSpecial r = .gameOver w s1) ↔
      allFainted (attackOpponent (currentOf s) (opponentOf s) isSpecial r) = true := by
  constructor
  · rintro ⟨w, s1, h⟩
    simp only [attackCase] at h
    split at h
    · split at h
      · assumption
      · exact StepResult.noConfusion h
    · exact StepResult.noConfusion h
  · intro hall
    have hhp := allFainted_attack_hp_zero (currentOf s) (opponentOf s) isSpecial r
      hlt hfhp hall
    refine ⟨s.turn, setPlayers s
      (distributeExperience (currentOf s)
        (attackOpponent (currentOf s) (opponentOf s) isSpecial r))
      (attackOpponent (currentOf s) (opponentOf s) isSpecial r), ?_⟩
    simp only [attackCase]
    rw [if_pos hhp, if_pos hall]

/-- Helper: equation for `battleStep` on an unrecognized action tag. -/
theorem battleStep_default_eq (s : GameState) (a : String) (isSpecial : Bool)
    (r : Int) (h1 : a ≠ "attack") (h2 : a ≠ "switch") (h3 : a ≠ "surrender") :
    battleStep s (some a) isSpecial r = .next { s with turn := 3 - s.turn } := by
  simp only [battleStep]

/-- Helper: equation for `battleStep` on `"attack"`. -/
theorem battleStep_attack_eq (s : GameState) (isSpecial : Bool) (r : Int) :
    battleStep s (some "attack") isSpecial r = attackCase s isSpecial r := rfl

/-- Helper: equation for `battleStep` on `"switch"`. -/
theorem battleStep_switch_eq (s : GameState) (isSpecial : Bool) (r : Int) :
    battleStep s (some "switch") isSpecial r =
      .next { setPlayers s (switchPokemon (currentOf s)) (opponentOf s) with
              turn := 3 - s.turn } := rfl

/-- Helper: equation for `battleStep` on `"surrender"`. -/
theorem battleStep_surrender_eq (s : GameState) (isSpecial : Bool) (r : Int) :
    battleStep s (some "surrender") isSpecial r =
      .gameOver (3 - s.turn)
        (setPlayers s (currentOf s)
          (distributeExperience (opponentOf s) (currentOf s))) := rfl

/-- C7: a roster is defeated exactly when all of its (three) combatants
are flagged fainted (`allFainted`), and — in any state where the
defender's active index is in range and fainted combatants carry 0 HP,
as in every reachable battle state — the battle loop declares a winner
and ends if and only if the action is a surrender, or it is an attack
after which the whole defending roster is fainted.  In particular an
attack that faints the active combatant while the defending roster still
has a non-fainted member does not terminate the match, and a parsed
action never aborts the session. -/
theorem battle_termination_iff (s : GameState) (a : String) (isSpecial : Bool)
    (r : Int) (hlt : (opponentOf s).active < (opponentOf s).pokemons.length)
    (hfhp : ∀ pk ∈ (opponentOf s).pokemons, pk.isFainted = true → pk.hp = 0) :
    ((∃ w s1, battleStep s (some a) isSpecial r = .gameOver w s1) ↔
      (a = "surrender" ∨ (a = "attack" ∧
        allFainted (attackOpponent (currentOf s) (opponentOf s) isSpecial r) = true))) ∧
    (∀ s1, battleStep s (some a) isSpecial r ≠ .aborted s1) ∧
    (∀ player : Player,
      allFainted player = true ↔ ∀ pk ∈ player.pokemons, pk.isFainted = true) := by
  have hmain : (∃ w s1, battleStep s (some a) isSpecial r = .gameOver w s1) ↔
      (a = "surrender" ∨ (a = "attack" ∧
        allFainted (attackOpponent (currentOf s) (opponentOf s) isSpecial r) = true)) := by
    by_cases ha1 : a = "attack"
    · subst ha1
      rw [battleStep_attack_eq, attackCase_gameOver_iff s isSpecial r hlt hfhp]
      simp
    · by_cases ha2 : a = "switch"
      · subst ha2
        rw [battleStep_switch_eq]
        simp
      · by_cases ha3 : a = "surrender"
        · subst ha3
          rw [battleStep_surrender_eq]
          simp
        · rw [battleStep_default_eq s a isSpecial r ha1 ha2 ha3]
          simp [ha1, ha3]
  refine ⟨hmain, ?_, ?_⟩
  · intro s1
    by_cases ha1 : a = "attack"
    · subst ha1
      rw [battleStep_attack_eq]
      simp only [attackCase]
      split
      · split
        · exact fun h => StepResult.noConfusion h
        · exact fun h => StepResult.noConfusion h
      · exact fun h => StepResult.noConfusion h
    · by_cases ha2 : a = "switch"
      · subst ha2
        rw [battleStep_switch_eq]
        exact fun h => StepResult.noConfusion h
      · by_cases ha3 : a = "surrender"
        · subst ha3
          rw [battleStep_surrender_eq]
          exact fun h => StepResult.noConfusion h
        · rw [battleStep_default_eq s a isSpecial r ha1 ha2 ha3]
          exact fun h => StepResult.noConfusion h
  · intro player
    simp only [allFainted]
    exact List.all_eq_true

/-- Witness for `battle_termination_iff`: in the concrete state `cState`
a `"surrender"` action makes the step terminal with a declared winner. -/
theorem battle_termination_iff_witness :
    ∃ w s1, battleStep cState (some "surrender") false 0 = .gameOver w s1 :=
  (battle_termination_iff cState "surrender" false 0 (by decide) (by decide)).1.mpr
    (Or.inl rfl)

/-- C8: whenever a resolved action leaves the match running
(`StepResult.next` — attack without roster defeat, switch, or a
fall-through tag), the turn owner flips exactly once (`Turn = 3 - Turn`:
from 1 to 2 and from 2 to 1); whenever the step is terminal
(`StepResult.gameOver` — surrender or roster defeat), the turn owner is
left untouched and the battle loop consumes no further input: the run's
outcome is that terminal state whatever inputs follow. -/
theorem battle_turn_alternation (s : GameState) (msg : Option String)
    (isSpecial : Bool) (r : Int) :
    (∀ s1, battleStep s msg isSpecial r = .next s1 →
      s1.turn = 3 - s.turn ∧ (s.turn = 1 → s1.turn = 2) ∧ (s.turn = 2 → s1.turn = 1)) ∧
    (∀ w s1 rest, battleStep s msg isSpecial r = .gameOver w s1 →
      s1.turn = s.turn ∧ battleRun s (⟨msg, isSpecial, r⟩ :: rest) = .gameOver w s1) := by
  constructor
  · intro s1 h
    have ht : s1.turn = 3 - s.turn := by
      cases msg with
      | none => exact StepResult.noConfusion h
      | some a =>
        by_cases ha1 : a = "attack"
        · subst ha1
          rw [battleStep_attack_eq] at h
          simp only [attackCase] at h
          split at h
          · split at h
            · exact StepResult.noConfusion h
            · injection h with h2
              subst h2
              rfl
          · injection h with h2
            subst h2
            rfl
        · by_cases ha2 : a = "switch"
          · subst ha2
            rw [battleStep_switch_eq] at h
            injection h with h2
            subst h2
            rfl
          · by_cases ha3 : a = "surrender"
            · subst ha3
              rw [battleStep_surrender_eq] at h
              exact StepResult.noConfusion h
            · rw [battleStep_default_eq s a isSpecial r ha1 ha2 ha3] at h
              injection h with h2
              subst h2
              rfl
    exact ⟨ht, fun h1 => by omega, fun h2 => by omega⟩
  · intro w s1 rest h
    have hrun : battleRun s (⟨msg, isSpecial, r⟩ :: rest) = .gameOver w s1 := by
      simp only [battleRun, h]
    refine ⟨?_, hrun⟩
    cases msg with
    | none => exact StepResult.noConfusion h
    | some a =>
      by_cases ha1 : a = "attack"
      · subst ha1
        rw [battleStep_attack_eq] at h
        simp only [attackCase] at h
        split at h
        · split at h
          · injection h with hw h2
            subst h2
            exact setPlayers_turn s _ _
          · exact StepResult.noConfusion h
        · exact StepResult.noConfusion h
      · by_cases ha2 : a = "switch"
        · subst ha2
          rw [battleStep_switch_eq] at h
          exact StepResult.noConfusion h
        · by_cases ha3 : a = "surrender"
          · subst ha3
            rw [battleStep_surrender_eq] at h
            injection h with hw h2
            subst h2
            exact setPlayers_turn s _ _
          · rw [battleStep_default_eq s a isSpecial r ha1 ha2 ha3] at h
            exact StepResult.noConfusion h

/-- Witness for `battle_turn_alternation`: a `"switch"` in the concrete
state `cState` (turn owner 1) hands the turn to player 2. -/
theorem battle_turn_alternation_witness :
    ∃ s1, battleStep cState (some "switch") false 0 = .next s1 ∧ s1.turn = 2 := by
  have h := (battle_turn_alternation cState (some "switch") false 0).1
  exact ⟨_, rfl, (h _ rfl).2.1 rfl⟩

/-- C6: the damage applied by a resolved attack is never negative, and
the defender's active combatant's HP after the attack stays within
`[0, maxHP]` whenever it was within `[0, maxHP]` before (the HP only
decreases toward the 0 floor, so it never exceeds the starting maximum
over the course of a battle). -/
theorem attack_hp_bounds (current opponent : Player) (isSpecial : Bool)
    (r : Int) (maxHP : Int)
    (h0 : 0 ≤ (opponent.pokemons.getD opponent.active dPk).hp)
    (hM : (opponent.pokemons.getD opponent.active dPk).hp ≤ maxHP) :
    0 ≤ calculateDamage (current.pokemons.getD current.active dPk)
        (opponent.pokemons.getD opponent.active dPk) isSpecial r ∧
    0 ≤ ((attackOpponent current opponent isSpecial r).pokemons.getD
        (attackOpponent current opponent isSpecial r).active dPk).hp ∧
    ((attackOpponent current opponent isSpecial r).pokemons.getD
        (attackOpponent current opponent isSpecial r).active dPk).hp ≤ maxHP := by
  have hd := calculateDamage_nonneg (current.pokemons.getD current.active dPk)
    (opponent.pokemons.getD opponent.active dPk) isSpecial r
  rw [attackOpponent_active]
  by_cases hlt : opponent.active < opponent.pokemons.length
  · rw [attackOpponent_getD current opponent isSpecial r hlt, damagedPokemon_hp]
    unfold damagedHp
    refine ⟨hd, ?_, ?_⟩ <;> split <;> omega
  · have hset : (attackOpponent current opponent isSpecial r).pokemons.getD
        opponent.active dPk = dPk := getD_set_ge _ _ _ _ hlt
    have h2 : opponent.pokemons.getD opponent.active dPk = dPk := by
      rw [List.getD_eq_getElem?_getD, List.getElem?_eq_none (by omega)]
      rfl
    rw [hset]
    rw [h2] at hM
    exact ⟨hd, by decide, hM⟩

/-- Witness for `attack_hp_bounds` at the concrete players `cWinner`
(attacker) and `cLoser` (defender, active HP 0 within `[0, 100]`). -/
theorem attack_hp_bounds_witness :
    0 ≤ calculateDamage (cWinner.pokemons.getD cWinner.active dPk)
        (cLoser.pokemons.getD cLoser.active dPk) false 5 ∧
    0 ≤ ((attackOpponent cWinner cLoser false 5).pokemons.getD
        (attackOpponent cWinner cLoser false 5).active dPk).hp ∧
    ((attackOpponent cWinner cLoser false 5).pokemons.getD
        (attackOpponent cWinner cLoser false 5).active dPk).hp ≤ 100 :=
  attack_hp_bounds cWinner cLoser false 5 100 (by decide) (by decide)

/-- Helper: unfolding equation of the selection loop, empty request list. -/
theorem selectLoop_nil (pokedex : List Pokemon) (chosen : List Int) :
    selectLoop pokedex [] chosen =
      (if 3 ≤ chosen.length then some chosen else none) := rfl

/-- Helper: unfolding equation of the selection loop, decode error. -/
theorem selectLoop_cons_none (pokedex : List Pokemon) (rest : List (Option Int))
    (chosen : List Int) :
    selectLoop pokedex (none :: rest) chosen =
      (if 3 ≤ chosen.length then some chosen
       else selectLoop pokedex rest chosen) := rfl

/-- Helper: unfolding equation of the selection loop, decoded request. -/
theorem selectLoop_cons_some (pokedex : List Pokemon) (c : Int)
    (rest : List (Option Int)) (chosen : List Int) :
    selectLoop pokedex (some c :: rest) chosen =
      (if 3 ≤ chosen.length then some chosen
       else if 0 ≤ c ∧ c < (pokedex.length : Int) ∧ c ∉ chosen then
         selectLoop pokedex rest (chosen ++ [c])
       else selectLoop pokedex rest chosen) := rfl

/-- Helper: once three Pokémon are accepted the selection loop stops and
returns them, whatever requests remain. -/
theorem selectLoop_of_full (pokedex : List Pokemon) (requests : List (Option Int))
    (chosen : List Int) (hge : 3 ≤ chosen.length) :
    selectLoop pokedex requests chosen = some chosen := by
  cases requests with
  | nil => rw [selectLoop_nil, if_pos hge]
  | cons req rest =>
    cases req with
    | none => rw [selectLoop_cons_none, if_pos hge]
    | some c => rw [selectLoop_cons_some, if_pos hge]

/-- Helper: the selection loop preserves its invariant — at most three
accepted picks, all distinct, all in catalog bounds — and on completion
returns exactly three such picks. -/
theorem selectLoop_spec (pokedex : List Pokemon) :
    ∀ (requests : List (Option Int)) (chosen l : List Int),
      chosen.length ≤ 3 → chosen.Nodup →
      (∀ c ∈ chosen, 0 ≤ c ∧ c < (pokedex.length : Int)) →
      selectLoop pokedex requests chosen = some l →
      l.length = 3 ∧ l.Nodup ∧ ∀ c ∈ l, 0 ≤ c ∧ c < (pokedex.length : Int) := by
  intro requests
  induction requests with
  | nil =>
    intro chosen l h3 hnd hb h
    rw [selectLoop_nil] at h
    split at h
    · rename_i hge
      injection h with h2
      subst h2
      exact ⟨by omega, hnd, hb⟩
    · exact Option.noConfusion h
  | cons req rest ih =>
    intro chosen l h3 hnd hb h
    cases req with
    | none =>
      rw [selectLoop_cons_none] at h
      split at h
      · rename_i hge
        injection h with h2
        subst h2
        exact ⟨by omega, hnd, hb⟩
      · exact ih chosen l h3 hnd hb h
    | some c =>
      rw [selectLoop_cons_some] at h
      split at h
      · rename_i hge
        injection h with h2
        subst h2
        exact ⟨by omega, hnd, hb⟩
      · rename_i hlt
        split at h
        · rename_i hc
          refine ih (chosen ++ [c]) l ?_ ?_ ?_ h
          · rw [List.length_append]
            simp only [List.length_singleton]
            omega
          · rw [List.nodup_append]
            refine ⟨hnd, List.nodup_singleton c, ?_⟩
            intro x hx hxc
            rw [List.mem_singleton] at hxc
            subst hxc
            exact hc.2.2 hx
          · intro x hx
            rcases List.mem_append.mp hx with hmem | hmem
            · exact hb x hmem
            · rw [List.mem_singleton] at hmem
              subst hmem
              exact ⟨hc.1, hc.2.1⟩
        · exact ih chosen l h3 hnd hb h

/-- C9: an invalid selection request — decode error, index out of
catalog bounds, or an index already accepted for this player — is
rejected without consuming a slot: the loop continues on the remaining
requests with the accepted picks unchanged.  Consequently every
completed roster holds exactly three combatants, referencing three
distinct in-bounds catalog indices, listed in selection order (the
roster is the selection list mapped through the catalog), with the
active index at its initial value 0. -/
theorem handlePokemonSelection_valid (playerName : String) (pokedex : List Pokemon)
    (requests : List (Option Int)) (player : Player)
    (hdone : handlePokemonSelection playerName pokedex requests = some player) :
    (∃ l, selectLoop pokedex requests [] = some l ∧ l.length = 3 ∧ l.Nodup ∧
      (∀ c ∈ l, 0 ≤ c ∧ c < (pokedex.length : Int)) ∧
      player.pokemons = l.map (fun c => pokedex.getD c.toNat dPk) ∧
      player.active = 0) ∧
    (∀ (chosen : List Int) (c : Int) (rest : List (Option Int)),
      ¬ (0 ≤ c ∧ c < (pokedex.length : Int) ∧ c ∉ chosen) →
      selectLoop pokedex (some c :: rest) chosen = selectLoop pokedex rest chosen) ∧
    (∀ (chosen : List Int) (rest : List (Option Int)),
      selectLoop pokedex (none :: rest) chosen = selectLoop pokedex rest chosen) := by
  refine ⟨?_, ?_, ?_⟩
  · unfold handlePokemonSelection at hdone
    cases hsel : selectLoop pokedex requests [] with
    | none =>
      rw [hsel] at hdone
      exact Option.noConfusion hdone
    | some l =>
      rw [hsel] at hdone
      injection hdone with h2
      obtain ⟨hlen, hnd, hbound⟩ := selectLoop_spec pokedex requests [] l
        (by simp) (by simp) (by simp) hsel
      refine ⟨l, rfl, hlen, hnd, hbound, ?_, ?_⟩
      · rw [← h2]
      · rw [← h2]
  · intro chosen c rest hinval
    by_cases hge : 3 ≤ chosen.length
    · rw [selectLoop_of_full _ _ _ hge, selectLoop_of_full _ _ _ hge]
    · rw [selectLoop_cons_some, if_neg hge, if_neg hinval]
  · intro chosen rest
    by_cases hge : 3 ≤ chosen.length
    · rw [selectLoop_of_full _ _ _ hge, selectLoop_of_full _ _ _ hge]
    · rw [selectLoop_cons_none, if_neg hge]

/-- Witness for `handlePokemonSelection_valid`: on a catalog of three
Pokémon, the request run [1, 1 (duplicate), 5 (out of bounds),
decode error, 2, 0] completes with three accepted, distinct picks. -/
theorem handlePokemonSelection_valid_witness :
    ∃ l, selectLoop cexOpp.pokemons [some 1, some 1, some 5, none, some 2, some 0] []
        = some l ∧ l.length = 3 ∧ l.Nodup := by
  have h := (handlePokemonSelection_valid "P1" cexOpp.pokemons
    [some 1, some 1, some 5, none, some 2, some 0] _ rfl).1
  obtain ⟨l, hsel, hlen, hnd, -⟩ := h
  exact ⟨l, hsel, hlen, hnd⟩
